import Mathlib

/-!
Verification of the scenex video-frame-extractor against its specification.

The repository is a browser single-page application (src/src/App.tsx) with two
web workers: an encode worker (src/unnamed/part_000, frame.worker.ts) and a
compression worker (src/unnamed/part_001, compression.worker.ts).  This file
gives a shallow embedding of the data model and the operations the claims
mention: pure functions are translated to Lean functions, stateful browser
interactions become explicit state passing or traces of effects, machine
numbers become Nat / ℚ, and fallible steps return Except.
-/

namespace Scenex

/-- Bytes of a `Uint8Array`, modelled as a list of byte values. -/
abbrev Bytes := List Nat

/-- The image formats offered by the settings form (App.tsx, `VideoSettings.format`). -/
inductive ImgFormat
  | jpg
  | png
  | webp
deriving DecidableEq, Repr

/-- The string stored in `settings.format`. -/
def formatStr : ImgFormat → String
  | ImgFormat.jpg => "jpg"
  | ImgFormat.png => "png"
  | ImgFormat.webp => "webp"

/-- Values of `settings.extractionMode` (App.tsx line 25). -/
inductive ExtractionMode
  | all
  | interval
  | count
deriving DecidableEq, Repr

/-- The `VideoSettings` interface (App.tsx lines 21-30).  `quality` is a
JavaScript number in [0.1, 1.0], embedded as ℚ; `maxWidth` is nullable. -/
structure VideoSettings where
  format : ImgFormat
  quality : ℚ
  maxWidth : Option Nat
  extractionMode : ExtractionMode
  framesPerSecond : Nat
  totalFrames : Nat
  filenamePattern : String
  useOriginalName : Bool
deriving DecidableEq, Repr

/-- Model of the regex replacement removing a trailing extension, used at
App.tsx lines 117 and 311/320: it removes a final `.ext` suffix where `ext` is a
nonempty run of characters containing neither `/` nor `.`.  Because the match
is anchored at the end and the extension may not contain a dot, the dot
removed is the last dot of the string, provided the characters after it are
nonempty and slash-free. -/
def stripExt (s : String) : String :=
  let r := s.data.reverse
  let ext := r.takeWhile (fun c => c ≠ '.')
  if ext.length < r.length ∧ ext ≠ [] ∧ '/' ∉ ext then
    String.mk ((r.drop (ext.length + 1)).reverse)
  else s

/-- Global replacement `pattern.replace(/%i/g, repl)` (App.tsx line 120):
left-to-right, non-overlapping replacement of every occurrence of `%i`. -/
def replaceAllPctI (repl : List Char) : List Char → List Char
  | '%' :: 'i' :: rest => repl ++ replaceAllPctI repl rest
  | c :: rest => c :: replaceAllPctI repl rest
  | [] => []

/-- JavaScript `String.prototype.padStart` with a single pad character. -/
def padStart (s : String) (width : Nat) (c : Char) : String :=
  String.mk (List.replicate (width - s.length) c) ++ s

/-- Translation of `generateFilename` (App.tsx lines 111-122), clause by clause:
padding width from the `>= 10000 / >= 1000 / >= 100` conditional chain, the
pattern from `useOriginalName`, then `%i` replacement and the format suffix. -/
def generateFilename (settings : VideoSettings) (index : Nat) (totalFrames : Nat)
    (originalName : String) : String :=
  let paddingLength : Nat :=
    if totalFrames ≥ 10000 then 5
    else if totalFrames ≥ 1000 then 4
    else if totalFrames ≥ 100 then 3
    else 2
  let pattern : String :=
    if settings.useOriginalName then stripExt originalName ++ "_%i"
    else settings.filenamePattern
  String.mk (replaceAllPctI (padStart (toString index) paddingLength '0').data pattern.data)
    ++ "." ++ formatStr settings.format

/-- The padding width exactly as the claim about `generateFilename` phrases it:
2 below 100, 3 below 1000, 4 below 10000, 5 from 10000 on. -/
def claimPadWidth (n : Nat) : Nat :=
  if n < 100 then 2
  else if n < 1000 then 3
  else if n < 10000 then 4
  else 5

/-- The filename the claim describes: the pattern (original name stripped of its
final extension plus "_%i" when `useOriginalName`, else the configured
pattern) with every `%i` replaced by the zero-padded index, then a dot and
the configured format. -/
def claimFilename (settings : VideoSettings) (index : Nat) (totalFrames : Nat)
    (originalName : String) : String :=
  let pattern : String :=
    if settings.useOriginalName then stripExt originalName ++ "_%i"
    else settings.filenamePattern
  String.mk (replaceAllPctI (padStart (toString index) (claimPadWidth totalFrames) '0').data
      pattern.data)
    ++ "." ++ formatStr settings.format

/-! ### Frame-time queue and the per-worker loop (App.tsx lines 152-214) -/

/-- Body of the queue-building while loop (App.tsx lines 164-169), recursion on
the number of free slots: the loop runs while `frameQueue.length < totalFrames`
(here: while slots remain) and `currentTime < video.duration`, pushing
`currentTime` and advancing it by `frameInterval`. -/
def buildFrameQueueAux (frameInterval duration : ℚ) : Nat → ℚ → List ℚ
  | 0, _ => []
  | Nat.succ slots, t =>
    if t < duration then t :: buildFrameQueueAux frameInterval duration slots (t + frameInterval)
    else []

/-- The frame-times queue built before processing, starting at `currentTime = 0`. -/
def buildFrameQueue (totalFrames : Nat) (frameInterval duration : ℚ) : List ℚ :=
  buildFrameQueueAux frameInterval duration totalFrames 0

/-- One `frameQueue.shift()` step of the worker loop (App.tsx line 174): the
loop guard `frameQueue.length > 0` corresponds to a `some` result. -/
def frameQueueShift (q : List ℚ) : Option (ℚ × List ℚ) :=
  match q with
  | [] => none
  | t :: rest => some (t, rest)

/-- Number of iterations a worker loop performs when it drains the given queue
alone: each iteration shifts one element, so the loop is structural recursion
on the queue. -/
def workerLoopIterations : List ℚ → Nat
  | [] => 0
  | _ :: rest => workerLoopIterations rest + 1

/-! ### Encode worker (src/unnamed/part_000, frame.worker.ts) -/

/-- The `ImageData` captured from the canvas. -/
structure ImageData where
  width : Nat
  height : Nat
  data : Bytes
deriving DecidableEq, Repr

/-- The messages the encode worker posts back (App.tsx lines 5-14):
success carries `frameNumber` and the encoded bytes, failure an error string. -/
inductive WorkerResponse
  | success (frameNumber : Nat) (data : Bytes)
  | failure (error : String)
deriving DecidableEq, Repr

/-- The settings slice posted to the encode worker (App.tsx lines 143-146). -/
structure EncodeSettings where
  format : ImgFormat
  quality : ℚ
deriving DecidableEq, Repr

/-- Model of the encode worker's onmessage handler (frame.worker.ts):
the requested MIME type is the concatenation of the literal "image/" with
the format string, quality is dropped
for PNG, and `canvas.convertToBlob` is an external encoder passed as a
function.  The first component records the MIME type the worker requested,
the second the message it posts back. -/
def frameWorkerOnMessage (convertToBlob : ImageData → String → Option ℚ → Except String Bytes)
    (imageData : ImageData) (settings : EncodeSettings) (frameNumber : Nat) :
    String × WorkerResponse :=
  let mimeType : String := "image/" ++ formatStr settings.format
  let quality : Option ℚ :=
    if settings.format = ImgFormat.png then none else some settings.quality
  match convertToBlob imageData mimeType quality with
  | Except.ok bytes => (mimeType, WorkerResponse.success frameNumber bytes)
  | Except.error e => (mimeType, WorkerResponse.failure e)

/-- Model of the promise in `processFrameInWorker` (App.tsx lines 130-138):
a response with an `error` field rejects with that error, otherwise the
promise resolves with the data field. -/
def processFrameInWorker (resp : WorkerResponse) : Except String Bytes :=
  match resp with
  | WorkerResponse.failure e => Except.error e
  | WorkerResponse.success _ d => Except.ok d

/-! ### Compression worker (src/unnamed/part_001, compression.worker.ts) -/

/-- Compression algorithms the archive library offers; the worker always
selects DEFLATE. -/
inductive CompressionAlg
  | DEFLATE
  | STORE
deriving DecidableEq, Repr

/-- Model of `zip.file(filename, data)`: JSZip adds an entry, replacing any
existing entry with the same name. -/
def jszipFile (entries : List (String × Bytes)) (name : String) (data : Bytes) :
    List (String × Bytes) :=
  if entries.any (fun p => p.1 == name) then
    entries.map (fun p => if p.1 == name then (name, data) else p)
  else entries ++ [(name, data)]

/-- The `Object.entries(frames).forEach(([filename, data]) => zip.file(filename, data))`
loop of the compression worker, starting from an empty archive. -/
def addFramesToZip (frames : List (String × Bytes)) : List (String × Bytes) :=
  frames.foldl (fun z p => jszipFile z p.1 p.2) []

/-- The `level || 6` default of the compression worker: a missing level — and,
because `||` tests falsiness, an explicit level 0 — becomes 6. -/
def zipLevel (level : Option Nat) : Nat :=
  match level with
  | none => 6
  | some l => if l = 0 then 6 else l

/-- Model of the compression worker's onmessage handler: it builds the archive
by delegating every entry to `zip.file` and the byte generation to the
library's `generateAsync` (the `zipGenerate` parameter) with DEFLATE
compression at the resolved level. -/
def compressionWorkerOnMessage
    (zipGenerate : List (String × Bytes) → CompressionAlg → Nat → Bytes)
    (frames : List (String × Bytes)) (level : Option Nat) : Bytes :=
  zipGenerate (addFramesToZip frames) CompressionAlg.DEFLATE (zipLevel level)

/-- Model of `compressFrames` (App.tsx lines 222-241): it posts `\x7bframes\x7d` to a
fresh compression worker — no `level` field — and resolves with the worker's
data. -/
def compressFrames (zipGenerate : List (String × Bytes) → CompressionAlg → Nat → Bytes)
    (frames : List (String × Bytes)) : Bytes :=
  compressionWorkerOnMessage zipGenerate frames none

/-! ### The capture step as a trace of browser interactions (App.tsx lines 177-208)

`ExtendedHTMLVideoElement` (App.tsx lines 16-19) declares the decoded-frame
counters `mozDecodedFrames` and `webkitDecodedFrameCount` — the indicators a
polling strategy would repeatedly read — but the capture loop never reads
them.  The action alphabet below includes a `pollIndicator` action so that
the trace model can express a polling implementation; the translated trace
shows which actions the source actually performs, in order. -/

/-- Browser interactions the capture step can perform, in the order the source
performs them. -/
inductive CaptureAction
  | setCurrentTime (t : ℚ)
  | awaitEventOnce (name : String)
  | pollIndicator
  | createCanvas
  | getContext
  | drawImage
  | getImageData
  | postToWorker
  | storeFrame
  | setProgress
deriving DecidableEq, Repr

/-- Trace of one iteration of `processNextBatch` for frame time `t`
(App.tsx lines 173-208): assign `video.currentTime`, await a single `seeked`
event registered with a once-listener, then capture, encode and store. -/
def captureStepTrace (t : ℚ) : List CaptureAction :=
  [CaptureAction.setCurrentTime t,
   CaptureAction.awaitEventOnce "seeked",
   CaptureAction.createCanvas,
   CaptureAction.getContext,
   CaptureAction.drawImage,
   CaptureAction.getImageData,
   CaptureAction.postToWorker,
   CaptureAction.storeFrame,
   CaptureAction.setProgress]

/-- The reading of the claim that capture timing polls a seek-completed
indicator: every capture step would repeatedly check the indicator — so its
trace would contain at least one `pollIndicator` action. -/
def captureTimingPolls : Prop :=
  ∀ t : ℚ, CaptureAction.pollIndicator ∈ captureStepTrace t

/-! ### Worker batch loop with failures, and the abort path of `extractFrames`
(App.tsx lines 124-150, 243-298) -/

/-- The worker loop of `processNextBatch` driven by an external responder that
says how the encode worker answers each frame time.  Returns the list of
frame times actually attempted (in order) and either the collected frames or
the first error.  A rejected `processFrameInWorker` promise rejects the whole
async loop, so on an error no further element is processed. -/
def runBatchLoop (respond : ℚ → WorkerResponse) : List ℚ → List ℚ × Except String (List (ℚ × Bytes))
  | [] => ([], Except.ok [])
  | t :: rest =>
    match processFrameInWorker (respond t) with
    | Except.error e => ([t], Except.error e)
    | Except.ok d =>
      let r := runBatchLoop respond rest
      (t :: r.1, r.2.map (fun l => (t, d) :: l))

/-- The component state `extractFrames` touches: `isProcessing`, `progress`,
whether `alert` was called, and how many pool workers are still alive. -/
structure UIState where
  isProcessing : Bool
  progress : Nat
  alerted : Bool
  workersAlive : Nat
deriving DecidableEq, Repr

/-- Model of the try / catch / finally of `extractFrames` (App.tsx lines
248-297) around the batch loop: a rejection is caught (alert), and the
finally block clears `isProcessing`, resets progress and terminates every
pool worker in both outcomes. -/
def extractFramesRun (respond : ℚ → WorkerResponse) (q : List ℚ) :
    UIState × Except String (List (ℚ × Bytes)) :=
  match (runBatchLoop respond q).2 with
  | Except.error e =>
    ({ isProcessing := false, progress := 0, alerted := true, workersAlive := 0 },
     Except.error e)
  | Except.ok fs =>
    ({ isProcessing := false, progress := 0, alerted := false, workersAlive := 0 },
     Except.ok fs)

/-! ### File selection (App.tsx lines 59-69) -/

/-- The two fields of a `File` the handler looks at. -/
structure JSFile where
  name : String
  type : String
deriving DecidableEq, Repr

/-- JavaScript `startsWith`: the candidate prefix's characters head the
string's characters.  Defined on the character lists so that it evaluates by
kernel reduction. -/
def strStartsWith (s pre : String) : Bool :=
  pre.data.isPrefixOf s.data

/-- The component state `handleFileSelect` touches. -/
structure SelectState where
  videoFile : Option JSFile
  videoUrl : String
  isPlaying : Bool
  progress : Nat
deriving DecidableEq, Repr

/-- Translation of `handleFileSelect` (App.tsx lines 59-69): when the file's
MIME type starts with "video/", store the file, create and store its object
URL, stop playback and reset progress; otherwise alert and change nothing.
`objectURL` stands for `URL.createObjectURL`.  The boolean result records
whether `alert` was called. -/
def handleFileSelect (s : SelectState) (objectURL : JSFile → String) (file : JSFile) :
    SelectState × Bool :=
  if strStartsWith file.type "video/" then
    ({ videoFile := some file, videoUrl := objectURL file, isPlaying := false, progress := 0 },
     false)
  else (s, true)

/-! ### Download (App.tsx lines 300-326) -/

/-- The two download paths of `createDownload`. -/
inductive DownloadMethod
  | streaming
  | regular
deriving DecidableEq, Repr

/-- Translation of `createDownload`: the blob size is the byte length of the
compressed data; sizes above 100 * 1024 * 1024 take the streamsaver path,
others an anchor click.  Both paths name the file from the original filename
stripped of its final extension and `Date.now()` (the `now` parameter).
The result is the chosen method and the download filename. -/
def createDownload (compressedData : Bytes) (originalFilename : String) (now : Nat) :
    DownloadMethod × String :=
  let blobSize := compressedData.length
  let filename := "frames_" ++ stripExt originalFilename ++ "_" ++ toString now ++ ".zip"
  if blobSize > 100 * 1024 * 1024 then (DownloadMethod.streaming, filename)
  else (DownloadMethod.regular, filename)

/-! ### Interleaved capture across the worker pool (App.tsx lines 172-213)

All `processNextBatch` loops share one queue, one video element and one
frames record.  `frameQueue.shift()` runs without an intervening await, so a
dequeue is atomic; but between a worker's assignment to `video.currentTime`
and the `seeked` event it awaits, another loop may dequeue and re-seek the
same video.  When a seek completes, the browser fires `seeked` on the
element and every once-listener registered by then resolves, so every
waiting loop draws from the video at its current position. -/

/-- Shared state of the capture loops: the remaining queue, the last value
assigned to `video.currentTime`, the frame times whose loops are awaiting
`seeked`, and the stored results as pairs of (dequeued frame time, time whose
frame was actually drawn). -/
structure CaptureState where
  queue : List ℚ
  videoTime : ℚ
  waiting : List ℚ
  stored : List (ℚ × ℚ)
deriving DecidableEq, Repr

/-- Scheduler events: some idle loop dequeues and seeks, or a seek completes
and the `seeked` event resolves every waiting loop, which then draws the
frame the video currently displays. -/
inductive CaptureEvent
  | dequeue
  | seeked
deriving DecidableEq, Repr

/-- One scheduler step.  `dequeue` shifts the queue head, assigns
`video.currentTime` and registers a once-listener; `seeked` resolves all
waiting loops, each storing the frame drawn from the video at its current
time. -/
def captureStep (s : CaptureState) : CaptureEvent → CaptureState
  | CaptureEvent.dequeue =>
    match s.queue with
    | [] => s
    | t :: rest =>
      { queue := rest, videoTime := t, waiting := s.waiting ++ [t], stored := s.stored }
  | CaptureEvent.seeked =>
    { queue := s.queue, videoTime := s.videoTime, waiting := [],
      stored := s.stored ++ s.waiting.map (fun t => (t, s.videoTime)) }

/-- Run of a whole schedule. -/
def captureRun (s : CaptureState) : List CaptureEvent → CaptureState
  | [] => s
  | e :: es => captureRun (captureStep s e) es

/-- Initial shared state for a built frame queue. -/
def initCapture (q : List ℚ) : CaptureState :=
  { queue := q, videoTime := 0, waiting := [], stored := [] }

/-- The claim under scrutiny: under every interleaving, the frame image stored
for a dequeued time is the frame the video displays at that time (identifying
the drawn image with the video position it was drawn at). -/
def capturesAtOwnTime : Prop :=
  ∀ (q : List ℚ) (events : List CaptureEvent) (t img : ℚ),
    (t, img) ∈ (captureRun (initCapture q) events).stored → img = t

/-- The sequential schedule: each dequeue is immediately followed by its seek
completion, `n` times — the behaviour with a single worker loop. -/
def seqEvents : Nat → List CaptureEvent
  | 0 => []
  | n + 1 => CaptureEvent.dequeue :: CaptureEvent.seeked :: seqEvents n

/-! ### The whole extraction pipeline and its effect trace (App.tsx lines 243-326)

The sequential pipeline is extraction as `extractFrames` composes it: compute
interval and target count from the extraction mode (lines 255-272), build the
queue, capture and encode each queued time in order (keyed by the running
`completedFrames` counter), zip, download.  `encode` abstracts the canvas
encoder, `frameAt` the video decode of the frame displayed at a given time;
`src` is the video element's object URL, which `processFramesWithWorkers`
passes to `generateFilename` as the original name (line 204). -/

/-- Everything the pipeline does to the outside world.  `networkSend` is part
of the modelled browser surface (fetch / XHR); the translated pipeline shows
which effects the source performs. -/
inductive Effect
  | createWorker
  | seekVideo (t : ℚ)
  | drawFrame (t : ℚ)
  | postToWorker
  | generateZip
  | downloadFile (name : String)
  | networkSend (url : String) (payload : Bytes)
  | showAlert
deriving DecidableEq, Repr

/-- Whether an effect sends data over the network. -/
def Effect.isNetworkSend : Effect → Bool
  | Effect.networkSend _ _ => true
  | _ => false

/-- The `switch (settings.extractionMode)` of `extractFrames` (lines 259-272):
frame interval and total frame count. -/
def extractionParams (settings : VideoSettings) (duration : ℚ) : ℚ × Nat :=
  match settings.extractionMode with
  | ExtractionMode.all => (1 / 60, (duration * 60).ceil.toNat)
  | ExtractionMode.interval =>
      (1 / (settings.framesPerSecond : ℚ), (duration * settings.framesPerSecond).ceil.toNat)
  | ExtractionMode.count =>
      (duration / (settings.totalFrames : ℚ), settings.totalFrames)

/-- Number of pool workers: `navigator.hardwareConcurrency || 4` (line 246). -/
def poolSize (hardwareConcurrency : Nat) : Nat :=
  if hardwareConcurrency = 0 then 4 else hardwareConcurrency

/-- The frames-record builder shared by the loops: entry `i` pairs the
filename generated from the running `completedFrames` counter with the bytes
encoded from the image drawn for that completion slot (App.tsx lines
201-207). -/
def frameEntriesFrom (naming : Nat → String) (imageOf : ℚ → Bytes) :
    Nat → List ℚ → List (String × Bytes)
  | _, [] => []
  | i, t :: rest => (naming i, imageOf t) :: frameEntriesFrom naming imageOf (i + 1) rest

/-- The archive a run of the concurrent capture loops produces under a given
scheduler interleaving: the images actually drawn are the video times current
at each loop's `seeked` resolution (the second components of the capture
model's `stored` list, in completion order), each encoded and named by
`generateFilename` with its completion index and `video.src`, then added to
the zip. -/
def extractionArchiveOfSchedule (encode : ImgFormat → ℚ → ImageData → Bytes)
    (frameAt : ℚ → ImageData) (settings : VideoSettings) (duration : ℚ) (src : String)
    (events : List CaptureEvent) : List (String × Bytes) :=
  let p := extractionParams settings duration
  let q := buildFrameQueue p.2 p.1 duration
  let drawn := ((captureRun (initCapture q) events).stored).map Prod.snd
  addFramesToZip (frameEntriesFrom
    (fun i => generateFilename settings i p.2 src)
    (fun t => encode settings.format settings.quality (frameAt t)) 0 drawn)

/-- The archive of the sequential collapse — frames captured in queue order at
their own times.  Proved below (not assumed) to be exactly what the
concurrent model produces under the sequential schedule `seqEvents`. -/
def extractionArchive (encode : ImgFormat → ℚ → ImageData → Bytes) (frameAt : ℚ → ImageData)
    (settings : VideoSettings) (duration : ℚ) (src : String) : List (String × Bytes) :=
  let p := extractionParams settings duration
  let q := buildFrameQueue p.2 p.1 duration
  addFramesToZip (frameEntriesFrom
    (fun i => generateFilename settings i p.2 src)
    (fun t => encode settings.format settings.quality (frameAt t)) 0 q)

/-- The effect trace of one full run of `extractFrames` followed by
`createDownload`: worker creation, per-frame seek / draw / post, zip
generation, download.  No step performs a `networkSend`. -/
def extractionEffects (settings : VideoSettings) (duration : ℚ)
    (hardwareConcurrency : Nat) (videoFileName : String) (now : Nat) : List Effect :=
  let p := extractionParams settings duration
  let q := buildFrameQueue p.2 p.1 duration
  List.replicate (poolSize hardwareConcurrency) Effect.createWorker
    ++ q.flatMap (fun t => [Effect.seekVideo t, Effect.drawFrame t, Effect.postToWorker])
    ++ [Effect.generateZip,
        Effect.downloadFile ("frames_" ++ stripExt videoFileName ++ "_" ++ toString now ++ ".zip")]

/-- The determinism reading of the claim, stated of the concurrent program:
the output archive is a function of the video data and settings alone — the
same for every object URL in `video.src` and every scheduler interleaving of
the capture loops. -/
def archiveDataSettingsOnly : Prop :=
  ∀ (encode : ImgFormat → ℚ → ImageData → Bytes) (frameAt : ℚ → ImageData)
    (settings : VideoSettings) (duration : ℚ) (src₁ src₂ : String)
    (events₁ events₂ : List CaptureEvent),
    extractionArchiveOfSchedule encode frameAt settings duration src₁ events₁ =
      extractionArchiveOfSchedule encode frameAt settings duration src₂ events₂

/-! ### Concrete pipeline instances

Small explicit inputs used to evaluate the pipeline: an encoder returning the
raw pixel bytes, a one-pixel video whose frame at time 0 differs from every
later frame, a two-frame extraction with default naming, a one-frame
extraction naming entries from the original name, and the racy schedule in
which both loops dequeue before either seek completes. -/

/-- Encoder returning the drawn pixels unchanged. -/
def encodeData : ImgFormat → ℚ → ImageData → Bytes := fun _ _ img => img.data

/-- One-pixel video: the frame at time 0 is byte 0, every other frame byte 1. -/
def frameAtBit : ℚ → ImageData := fun t => ⟨1, 1, if t = 0 then [0] else [1]⟩

/-- Count-mode extraction of two frames with the default filename pattern. -/
def twoFrameSettings : VideoSettings :=
  ⟨ImgFormat.webp, 1, none, ExtractionMode.count, 60, 2, "frame_%i", false⟩

/-- Count-mode extraction of one frame, naming entries from the original name. -/
def oneFrameOrigSettings : VideoSettings :=
  ⟨ImgFormat.webp, 1, none, ExtractionMode.count, 60, 1, "frame_%i", true⟩

/-- Both loops dequeue and re-seek before the first seek completes. -/
def racySchedule : List CaptureEvent :=
  [CaptureEvent.dequeue, CaptureEvent.dequeue, CaptureEvent.seeked]

/-! ## Helper lemmas -/

/-- The conditional chain computing `paddingLength` agrees with the claim's
range description of the padding width. -/
lemma paddingLength_eq_claimPadWidth (n : Nat) :
    (if n ≥ 10000 then 5 else if n ≥ 1000 then 4 else if n ≥ 100 then 3 else 2)
      = claimPadWidth n := by
  unfold claimPadWidth
  split_ifs <;> omega

/-- A worker loop draining a queue alone iterates once per element. -/
lemma workerLoopIterations_eq_length (q : List ℚ) :
    workerLoopIterations q = q.length := by
  induction q with
  | nil => rfl
  | cons t rest ih => simp [workerLoopIterations, ih]

/-- The queue builder never exceeds the remaining slot count. -/
lemma buildFrameQueueAux_length_le (i d : ℚ) :
    ∀ (n : Nat) (t : ℚ), (buildFrameQueueAux i d n t).length ≤ n := by
  intro n
  induction n with
  | zero => intro t; simp [buildFrameQueueAux]
  | succ k ih =>
    intro t
    unfold buildFrameQueueAux
    split
    · simpa using Nat.succ_le_succ (ih (t + i))
    · simp

/-- Every time the queue builder pushes was checked against the duration. -/
lemma buildFrameQueueAux_mem_lt (i d : ℚ) :
    ∀ (n : Nat) (t x : ℚ), x ∈ buildFrameQueueAux i d n t → x < d := by
  intro n
  induction n with
  | zero => intro t x hx; simp [buildFrameQueueAux] at hx
  | succ k ih =>
    intro t x hx
    unfold buildFrameQueueAux at hx
    by_cases h : t < d
    · rw [if_pos h] at hx
      rcases List.mem_cons.mp hx with rfl | hx
      · exact h
      · exact ih (t + i) x hx
    · rw [if_neg h] at hx
      simp at hx

/-- Adding frames with pairwise fresh names appends them to the archive in
order: `zip.file` never hits its replace branch. -/
lemma foldl_jszipFile_fresh :
    ∀ (frames z : List (String × Bytes)),
      (∀ p ∈ frames, ∀ q ∈ z, p.1 ≠ q.1) →
      (frames.map Prod.fst).Nodup →
      frames.foldl (fun zz p => jszipFile zz p.1 p.2) z = z ++ frames := by
  intro frames
  induction frames with
  | nil => intro z _ _; simp
  | cons p rest ih =>
    intro z hdisj hnodup
    have hfresh : z.any (fun q => q.1 == p.1) = false := by
      rw [List.any_eq_false]
      intro q hq
      simpa using (hdisj p (List.mem_cons_self p rest) q hq).symm
    have hstep : jszipFile z p.1 p.2 = z ++ [p] := by
      unfold jszipFile
      rw [hfresh]
      simp
    have hnodup' : (rest.map Prod.fst).Nodup := (List.nodup_cons.mp hnodup).2
    have hhead : p.1 ∉ rest.map Prod.fst := (List.nodup_cons.mp hnodup).1
    have hdisj' : ∀ p' ∈ rest, ∀ q ∈ z ++ [p], p'.1 ≠ q.1 := by
      intro p' hp' q hq
      rcases List.mem_append.mp hq with hq | hq
      · exact hdisj p' (List.mem_cons_of_mem p hp') q hq
      · rcases List.mem_singleton.mp hq with rfl
        intro hcontra
        exact hhead (hcontra ▸ List.mem_map_of_mem Prod.fst hp')
    calc (p :: rest).foldl (fun zz q => jszipFile zz q.1 q.2) z
        = rest.foldl (fun zz q => jszipFile zz q.1 q.2) (jszipFile z p.1 p.2) := by
          simp [List.foldl_cons]
      _ = rest.foldl (fun zz q => jszipFile zz q.1 q.2) (z ++ [p]) := by rw [hstep]
      _ = (z ++ [p]) ++ rest := ih (z ++ [p]) hdisj' hnodup'
      _ = z ++ p :: rest := by simp

/-- With distinct names the compression worker's entry loop reproduces the
frames record exactly. -/
lemma addFramesToZip_eq_self (frames : List (String × Bytes))
    (h : (frames.map Prod.fst).Nodup) : addFramesToZip frames = frames := by
  unfold addFramesToZip
  simpa using foldl_jszipFile_fresh frames [] (by intro p _ q hq; simp at hq) h

/-- Shape of a failed batch loop: the attempted times are the elements up to
and including the first frame whose worker response is an error; every
earlier response succeeded, and nothing after the failure is attempted. -/
lemma runBatchLoop_error_shape :
    ∀ (respond : ℚ → WorkerResponse) (q : List ℚ) (e : String),
      (runBatchLoop respond q).2 = Except.error e →
      ∃ pre tf rest,
        q = (pre ++ [tf]) ++ rest ∧
        (runBatchLoop respond q).1 = pre ++ [tf] ∧
        processFrameInWorker (respond tf) = Except.error e ∧
        ∀ t ∈ pre, ∃ d, processFrameInWorker (respond t) = Except.ok d := by
  intro respond q
  induction q with
  | nil => intro e h; simp [runBatchLoop] at h
  | cons t q' ih =>
    intro e h
    cases hw : processFrameInWorker (respond t) with
    | error e' =>
      have hres : (runBatchLoop respond (t :: q')).2 = Except.error e' := by
        simp [runBatchLoop, hw]
      have he : e' = e := by
        rw [hres] at h
        exact (Except.error.injEq _ _).mp h
      refine ⟨[], t, q', by simp, ?_, he ▸ hw, by simp⟩
      simp [runBatchLoop, hw]
    | ok d =>
      have hsnd : (runBatchLoop respond (t :: q')).2
          = (runBatchLoop respond q').2.map (fun l => (t, d) :: l) := by
        simp [runBatchLoop, hw]
      have herr : (runBatchLoop respond q').2 = Except.error e := by
        rw [hsnd] at h
        cases hq : (runBatchLoop respond q').2 with
        | error e'' =>
          rw [hq] at h
          simp [Except.map] at h
          rw [h]
        | ok l =>
          rw [hq] at h
          simp [Except.map] at h
      obtain ⟨pre, tf, rest, hq, hatt, htf, hpre⟩ := ih e herr
      refine ⟨t :: pre, tf, rest, by simp [hq], ?_, htf, ?_⟩
      · simp [runBatchLoop, hw, hatt]
      · intro x hx
        rcases List.mem_cons.mp hx with rfl | hx
        · exact ⟨d, hw⟩
        · exact hpre x hx

/-- The concatenation of stored frame times, awaiting times and the remaining
queue is invariant under every scheduler step — a dequeue moves the head into
the waiting segment and a seek completion moves the waiting segment into the
stored segment. -/
lemma captureRun_handled_eq :
    ∀ (events : List CaptureEvent) (s : CaptureState),
      (captureRun s events).stored.map Prod.fst ++ (captureRun s events).waiting
          ++ (captureRun s events).queue
        = s.stored.map Prod.fst ++ s.waiting ++ s.queue := by
  intro events
  induction events with
  | nil => intro s; rfl
  | cons e es ih =>
    intro s
    rw [captureRun, ih (captureStep s e)]
    cases e with
    | dequeue =>
      cases hq : s.queue with
      | nil => simp [captureStep, hq]
      | cons t rest => simp [captureStep, hq]
    | seeked =>
      simp only [captureStep, List.map_append, List.map_map, List.append_nil]
      have : (Prod.fst ∘ fun t => (t, s.videoTime)) = (id : ℚ → ℚ) := by
        funext t; rfl
      rw [this, List.map_id, List.append_assoc]

/-- Under the sequential schedule every stored frame pairs a dequeued time
with itself: the video is at that exact time when the loop draws. -/
lemma captureRun_seq_stored :
    ∀ (q : List ℚ) (vt : ℚ) (st : List (ℚ × ℚ)),
      (captureRun ⟨q, vt, [], st⟩ (seqEvents q.length)).stored
        = st ++ q.map (fun t => (t, t)) := by
  intro q
  induction q with
  | nil => intro vt st; simp [seqEvents, captureRun]
  | cons t rest ih =>
    intro vt st
    have hlen : (t :: rest).length = rest.length + 1 := rfl
    rw [hlen, seqEvents, captureRun, captureRun]
    have h1 : captureStep ⟨t :: rest, vt, [], st⟩ CaptureEvent.dequeue
        = ⟨rest, t, [t], st⟩ := by
      simp [captureStep]
    have h2 : captureStep (⟨rest, t, [t], st⟩ : CaptureState) CaptureEvent.seeked
        = ⟨rest, t, [], st ++ [(t, t)]⟩ := by
      simp [captureStep]
    rw [h1, h2, ih t (st ++ [(t, t)])]
    simp

/-- Under the sequential schedule the drawn times are exactly the queue, in
order: each loop draws at its own dequeued time. -/
lemma captureRun_seq_drawn (q : List ℚ) :
    ((captureRun (initCapture q) (seqEvents q.length)).stored).map Prod.snd = q := by
  have h := captureRun_seq_stored q 0 []
  have hc : (Prod.snd ∘ fun t : ℚ => (t, t)) = id := funext fun t => rfl
  simp only [initCapture]
  rw [h]
  simp only [List.nil_append, List.map_map, hc, List.map_id]

/-- With `useOriginalName` off the generated filename never looks at the
original name argument. -/
lemma generateFilename_ignores_name (settings : VideoSettings)
    (h : settings.useOriginalName = false) (index totalFrames : Nat) (a b : String) :
    generateFilename settings index totalFrames a
      = generateFilename settings index totalFrames b := by
  simp [generateFilename, h]

/-- Extraction parameters of the two-frame instance: half-second interval. -/
lemma twoFrameParams : extractionParams twoFrameSettings 1 = ((1 : ℚ)/2, 2) := by
  norm_num [extractionParams, twoFrameSettings]

/-- Queue of the two-frame instance. -/
lemma twoFrameQueue : buildFrameQueue 2 ((1 : ℚ)/2) 1 = [0, (1 : ℚ)/2] := by
  norm_num [buildFrameQueue, buildFrameQueueAux]

/-- Stored results under the racy schedule: both loops draw at time 1/2. -/
lemma racyStored :
    (captureRun (initCapture [0, (1 : ℚ)/2]) racySchedule).stored
      = [(0, (1 : ℚ)/2), ((1 : ℚ)/2, (1 : ℚ)/2)] := rfl

/-- Stored results under the sequential schedule: each loop draws at its own
time. -/
lemma seqStoredTwo :
    (captureRun (initCapture [0, (1 : ℚ)/2]) (seqEvents 2)).stored
      = [(0, 0), ((1 : ℚ)/2, (1 : ℚ)/2)] := rfl

/-- First filename of the two-frame instance. -/
lemma nameTwo0 : generateFilename twoFrameSettings 0 2 "blob:a" = "frame_00.webp" := by
  decide

/-- Second filename of the two-frame instance. -/
lemma nameTwo1 : generateFilename twoFrameSettings 1 2 "blob:a" = "frame_01.webp" := by
  decide

/-- Archive of the two-frame instance under the racy schedule: the frame at
time 1/2 is stored twice. -/
lemma racyArchiveEval :
    extractionArchiveOfSchedule encodeData frameAtBit twoFrameSettings 1 "blob:a" racySchedule
      = [("frame_00.webp", [1]), ("frame_01.webp", [1])] := by
  simp only [extractionArchiveOfSchedule, twoFrameParams, twoFrameQueue, racyStored]
  norm_num [frameEntriesFrom, encodeData, frameAtBit, nameTwo0, nameTwo1]
  decide

/-- Archive of the two-frame instance under the sequential schedule: the
frames at times 0 and 1/2 are each stored once. -/
lemma seqArchiveEval :
    extractionArchiveOfSchedule encodeData frameAtBit twoFrameSettings 1 "blob:a" (seqEvents 2)
      = [("frame_00.webp", [0]), ("frame_01.webp", [1])] := by
  simp only [extractionArchiveOfSchedule, twoFrameParams, twoFrameQueue, seqStoredTwo]
  norm_num [frameEntriesFrom, encodeData, frameAtBit, nameTwo0, nameTwo1]
  decide

/-- Zip generation occurs in the two-frame instance's effect trace. -/
lemma memGenerateZip :
    Effect.generateZip ∈ extractionEffects twoFrameSettings 1 4 "v.mp4" 0 := by
  simp only [extractionEffects, twoFrameParams, twoFrameQueue]
  simp

/-! ## Claim theorems -/

/-- C9: for every index, total frame count, format and original name,
`generateFilename` returns the pattern (original name with its final
extension stripped plus "_%i" under `useOriginalName`, else the configured
pattern) with every occurrence of "%i" replaced by the index zero-padded to
width 2 below 100 total frames, 3 below 1000, 4 below 10000 and 5 from
10000 on, followed by a dot and the configured format. -/
theorem generateFilename_matches_claim (settings : VideoSettings)
    (index totalFrames : Nat) (originalName : String) :
    generateFilename settings index totalFrames originalName
      = claimFilename settings index totalFrames originalName := by
  unfold generateFilename claimFilename
  rw [paddingLength_eq_claimPadWidth]

/-- C10: `createDownload` chooses the streaming path exactly when the zip
blob's byte size exceeds 100 * 1024 * 1024, and in both branches names the
download from "frames_", the original filename stripped of its final
extension, an underscore, the timestamp and ".zip". -/
theorem createDownload_threshold_and_name (compressedData : Bytes)
    (originalFilename : String) (now : Nat) :
    ((createDownload compressedData originalFilename now).1 = DownloadMethod.streaming
        ↔ compressedData.length > 100 * 1024 * 1024)
    ∧ (createDownload compressedData originalFilename now).2
        = "frames_" ++ stripExt originalFilename ++ "_" ++ toString now ++ ".zip" := by
  unfold createDownload
  by_cases h : compressedData.length > 100 * 1024 * 1024
  · simp [h]
  · simp [h]

/-- Witness for C10 at a concrete small archive. -/
theorem createDownload_threshold_and_name_witness :
    ((createDownload [1, 2, 3] "movie.mp4" 123).1 = DownloadMethod.streaming
        ↔ ([1, 2, 3] : Bytes).length > 100 * 1024 * 1024)
    ∧ (createDownload [1, 2, 3] "movie.mp4" 123).2
        = "frames_" ++ stripExt "movie.mp4" ++ "_" ++ toString 123 ++ ".zip" :=
  createDownload_threshold_and_name [1, 2, 3] "movie.mp4" 123

/-- C7: `handleFileSelect` accepts a file exactly when its MIME type string
starts with "video/"; on acceptance it stores the file and its object URL
and resets playback and progress, and on rejection it alerts and leaves the
state unchanged. -/
theorem handleFileSelect_mime_sniffing_only (s : SelectState)
    (objectURL : JSFile → String) (file : JSFile) :
    ((handleFileSelect s objectURL file).2 = false ↔ strStartsWith file.type "video/" = true)
    ∧ (strStartsWith file.type "video/" = true →
        (handleFileSelect s objectURL file).1
          = ⟨some file, objectURL file, false, 0⟩)
    ∧ (strStartsWith file.type "video/" = false →
        (handleFileSelect s objectURL file).1 = s
          ∧ (handleFileSelect s objectURL file).2 = true) := by
  by_cases h : strStartsWith file.type "video/" = true
  · refine ⟨by simp [handleFileSelect, h], fun _ => by simp [handleFileSelect, h], fun hc => ?_⟩
    rw [h] at hc
    cases hc
  · have h' : strStartsWith file.type "video/" = false := by
      cases hb : strStartsWith file.type "video/"
      · rfl
      · exact absurd hb h
    refine ⟨by simp [handleFileSelect, h'], fun hc => ?_, fun _ => by simp [handleFileSelect, h']⟩
    rw [h'] at hc
    cases hc

/-- Witness for C7: a video MIME type is accepted and installs the file, URL
and reset playback state. -/
theorem handleFileSelect_mime_sniffing_only_witness :
    (strStartsWith "video/mp4" "video/" = true)
    ∧ (handleFileSelect ⟨none, "", true, 55⟩ (fun f => "blob:" ++ f.name)
          ⟨"a.mp4", "video/mp4"⟩).1
        = ⟨some ⟨"a.mp4", "video/mp4"⟩, "blob:a.mp4", false, 0⟩ :=
  ⟨by decide,
   (handleFileSelect_mime_sniffing_only ⟨none, "", true, 55⟩ (fun f => "blob:" ++ f.name)
      ⟨"a.mp4", "video/mp4"⟩).2.1 (by decide)⟩

/-- C3 counterexample: the capture step never checks a seek-completed
indicator — its trace contains no polling action, so capture timing is not
driven by repeatedly polling such a signal. -/
theorem capture_polling_refuted : ¬ captureTimingPolls := by
  intro h
  exact absurd (h 0) (by decide)

/-- C3 amended: after assigning the frame time to `video.currentTime`, the
capture step waits for a single `seeked` event registered with a
once-listener — it polls no indicator (zero polling actions in its trace) —
and only then draws and processes the frame. -/
theorem captureStep_awaits_seeked_event (t : ℚ) :
    (captureStepTrace t).count CaptureAction.pollIndicator = 0
    ∧ captureStepTrace t
        = [CaptureAction.setCurrentTime t,
           CaptureAction.awaitEventOnce "seeked",
           CaptureAction.createCanvas,
           CaptureAction.getContext,
           CaptureAction.drawImage,
           CaptureAction.getImageData,
           CaptureAction.postToWorker,
           CaptureAction.storeFrame,
           CaptureAction.setProgress] := by
  constructor
  · simp [captureStepTrace, List.count_cons]
  · rfl

/-- C4: for positive duration, frame interval and target count, the frame-time
queue built before processing has at most the target length and only times
strictly below the duration; a worker loop draining it iterates once per
element, and every shift removes exactly one element. -/
theorem frameQueue_bounded_and_loop_terminates (n : Nat) (i d : ℚ)
    (_hd : 0 < d) (_hi : 0 < i) (_hn : 0 < n) :
    (buildFrameQueue n i d).length ≤ n
    ∧ (∀ x ∈ buildFrameQueue n i d, x < d)
    ∧ workerLoopIterations (buildFrameQueue n i d) = (buildFrameQueue n i d).length
    ∧ (∀ (q : List ℚ) (t : ℚ) (rest : List ℚ),
        frameQueueShift q = some (t, rest) → rest.length + 1 = q.length) := by
  refine ⟨buildFrameQueueAux_length_le i d n 0,
          fun x hx => buildFrameQueueAux_mem_lt i d n 0 x hx,
          workerLoopIterations_eq_length _, ?_⟩
  intro q t rest h
  cases q with
  | nil => simp [frameQueueShift] at h
  | cons t' rest' =>
    simp only [frameQueueShift, Option.some.injEq, Prod.mk.injEq] at h
    rw [← h.2]
    rfl

/-- Witness for C4: three slots, half-second interval, one-second video give a
queue of two times below one second, drained in two iterations. -/
theorem frameQueue_bounded_and_loop_terminates_witness :
    (0 : ℚ) < 1 ∧ (0 : ℚ) < 1/2 ∧ 0 < 3
    ∧ (buildFrameQueue 3 (1/2) 1).length ≤ 3
    ∧ ((1 : ℚ)/2) < 1
    ∧ workerLoopIterations (buildFrameQueue 3 (1/2) 1) = (buildFrameQueue 3 (1/2) 1).length
    ∧ ([(1 : ℚ)] : List ℚ).length + 1 = ([0, 1] : List ℚ).length := by
  have h := frameQueue_bounded_and_loop_terminates 3 (1/2) 1 (by norm_num) (by norm_num)
    (by decide)
  exact ⟨by norm_num, by norm_num, by decide, h.1,
         h.2.1 (1/2) (by norm_num [buildFrameQueue, buildFrameQueueAux]), h.2.2.1,
         h.2.2.2 [0, 1] 0 [1] rfl⟩

/-- C2: for every frame and every chosen format, the encode worker requests
encoding with MIME type "image/" concatenated with the format, and on a
successful encode posts back a success message carrying that frame's number
and the encoded bytes. -/
theorem frameWorker_encodes_chosen_format
    (convertToBlob : ImageData → String → Option ℚ → Except String Bytes)
    (imageData : ImageData) (settings : EncodeSettings) (frameNumber : Nat) :
    (frameWorkerOnMessage convertToBlob imageData settings frameNumber).1
        = "image/" ++ formatStr settings.format
    ∧ ∀ bytes,
        convertToBlob imageData ("image/" ++ formatStr settings.format)
            (if settings.format = ImgFormat.png then none else some settings.quality)
          = Except.ok bytes →
        (frameWorkerOnMessage convertToBlob imageData settings frameNumber).2
          = WorkerResponse.success frameNumber bytes := by
  cases h : convertToBlob imageData ("image/" ++ formatStr settings.format)
      (if settings.format = ImgFormat.png then none else some settings.quality) with
  | ok bytes =>
    refine ⟨by simp [frameWorkerOnMessage, h], fun b hb => ?_⟩
    obtain rfl : bytes = b := (Except.ok.injEq _ _).mp hb
    simp [frameWorkerOnMessage, h]
  | error e =>
    refine ⟨by simp [frameWorkerOnMessage, h], fun b hb => ?_⟩
    cases hb

/-- Witness for C2: a PNG frame is requested as "image/png" with no quality and
the encoder's bytes come back in the success message for frame 3. -/
theorem frameWorker_encodes_chosen_format_witness :
    (frameWorkerOnMessage (fun _ _ _ => Except.ok [9]) ⟨1, 1, [0]⟩
        ⟨ImgFormat.png, 1/2⟩ 3).1 = "image/" ++ formatStr ImgFormat.png
    ∧ (frameWorkerOnMessage (fun _ _ _ => Except.ok [9]) ⟨1, 1, [0]⟩
        ⟨ImgFormat.png, 1/2⟩ 3).2 = WorkerResponse.success 3 [9] :=
  ⟨(frameWorker_encodes_chosen_format (fun _ _ _ => Except.ok [9]) ⟨1, 1, [0]⟩
      ⟨ImgFormat.png, 1/2⟩ 3).1,
   (frameWorker_encodes_chosen_format (fun _ _ _ => Except.ok [9]) ⟨1, 1, [0]⟩
      ⟨ImgFormat.png, 1/2⟩ 3).2 [9] rfl⟩

/-- C1: with the distinct names a frames record supplies, the compression
worker's archive holds exactly the input (filename, data) pairs — none
omitted — and `compressFrames` delegates the byte production entirely to the
archive library with DEFLATE compression at the defaulted level 6. -/
theorem compressFrames_archives_every_frame
    (frames : List (String × Bytes))
    (zipGenerate : List (String × Bytes) → CompressionAlg → Nat → Bytes)
    (h : (frames.map Prod.fst).Nodup) :
    addFramesToZip frames = frames
    ∧ (∀ p ∈ frames, p ∈ addFramesToZip frames)
    ∧ compressFrames zipGenerate frames = zipGenerate frames CompressionAlg.DEFLATE 6 := by
  have ha := addFramesToZip_eq_self frames h
  refine ⟨ha, fun p hp => by rw [ha]; exact hp, ?_⟩
  unfold compressFrames compressionWorkerOnMessage zipLevel
  rw [ha]

/-- Witness for C1 on a two-frame record and a concrete archive generator. -/
theorem compressFrames_archives_every_frame_witness :
    (([("frame_00.png", [1]), ("frame_01.png", [2])] : List (String × Bytes)).map
        Prod.fst).Nodup
    ∧ addFramesToZip [("frame_00.png", [1]), ("frame_01.png", [2])]
        = [("frame_00.png", [1]), ("frame_01.png", [2])]
    ∧ (("frame_00.png", [1]) : String × Bytes)
        ∈ addFramesToZip [("frame_00.png", [1]), ("frame_01.png", [2])]
    ∧ compressFrames (fun e _ l => [e.length, l])
          [("frame_00.png", [1]), ("frame_01.png", [2])]
        = (fun (e : List (String × Bytes)) (_ : CompressionAlg) (l : Nat) => [e.length, l])
            [("frame_00.png", [1]), ("frame_01.png", [2])] CompressionAlg.DEFLATE 6 := by
  have h : (([("frame_00.png", [1]), ("frame_01.png", [2])] : List (String × Bytes)).map
      Prod.fst).Nodup := by decide
  exact ⟨h,
    (compressFrames_archives_every_frame _ (fun e _ l => [e.length, l]) h).1,
    (compressFrames_archives_every_frame _ (fun e _ l => [e.length, l]) h).2.1 _ (by decide),
    (compressFrames_archives_every_frame _ (fun e _ l => [e.length, l]) h).2.2⟩

/-- C6: when a worker reports an error for a frame, `processFrameInWorker`
rejects with that error, the whole extraction aborts — alert shown,
processing flag and progress reset, every pool worker terminated — the
attempted frames are an initial segment of the queue ending at the failing
frame, each attempted at most once, and no frame is re-attempted. -/
theorem error_aborts_without_retry (respond : ℚ → WorkerResponse) (q : List ℚ)
    (e : String) (hq : q.Nodup) (h : (runBatchLoop respond q).2 = Except.error e) :
    (∀ msg, processFrameInWorker (WorkerResponse.failure msg) = Except.error msg)
    ∧ (extractFramesRun respond q).1
        = { isProcessing := false, progress := 0, alerted := true, workersAlive := 0 }
    ∧ (∃ rest, q = (runBatchLoop respond q).1 ++ rest)
    ∧ (runBatchLoop respond q).1.Nodup
    ∧ (∃ pre tf, (runBatchLoop respond q).1 = pre ++ [tf]
        ∧ processFrameInWorker (respond tf) = Except.error e
        ∧ ∀ t ∈ pre, ∃ d, processFrameInWorker (respond t) = Except.ok d) := by
  obtain ⟨pre, tf, rest, hqe, hatt, htf, hpre⟩ := runBatchLoop_error_shape respond q e h
  refine ⟨fun msg => rfl, by simp [extractFramesRun, h], ⟨rest, by rw [hatt, ← hqe]⟩, ?_,
    ⟨pre, tf, hatt, htf, hpre⟩⟩
  rw [hatt]
  exact (hqe ▸ hq).of_append_left

/-- Witness for C6: a responder failing on frame time 1 aborts the run after
attempting exactly the first two queued times, with the abort state reached. -/
theorem error_aborts_without_retry_witness :
    ([0, 1, 2] : List ℚ).Nodup
    ∧ (runBatchLoop
          (fun t => if t = 1 then WorkerResponse.failure "boom"
                    else WorkerResponse.success 0 [1]) [0, 1, 2]).2
        = Except.error "boom"
    ∧ processFrameInWorker (WorkerResponse.failure "boom") = Except.error "boom"
    ∧ (extractFramesRun
          (fun t => if t = 1 then WorkerResponse.failure "boom"
                    else WorkerResponse.success 0 [1]) [0, 1, 2]).1
        = { isProcessing := false, progress := 0, alerted := true, workersAlive := 0 }
    ∧ (runBatchLoop
          (fun t => if t = 1 then WorkerResponse.failure "boom"
                    else WorkerResponse.success 0 [1]) [0, 1, 2]).1.Nodup := by
  have hq : ([0, 1, 2] : List ℚ).Nodup := by decide
  have h : (runBatchLoop
      (fun t => if t = 1 then WorkerResponse.failure "boom"
                else WorkerResponse.success 0 [1]) [0, 1, 2]).2 = Except.error "boom" := by
    rfl
  exact ⟨hq, h,
    (error_aborts_without_retry _ _ "boom" hq h).1 "boom",
    (error_aborts_without_retry _ _ "boom" hq h).2.1,
    (error_aborts_without_retry _ _ "boom" hq h).2.2.2.1⟩

/-- C5 counterexample: an interleaving in which both workers dequeue before
either seek completes stores, for dequeued time 0, the frame the video
displays at time 1 — not the frame at time 0.  The claim that under every
interleaving each stored image is the frame at its dequeued time is false. -/
theorem capture_race_refuted : ¬ capturesAtOwnTime := by
  intro h
  have h01 := h [0, 1] [CaptureEvent.dequeue, CaptureEvent.dequeue, CaptureEvent.seeked]
    0 1 (by decide)
  exact absurd h01 (by norm_num)

/-- C5 amended: dequeues are atomic, so in every interleaving the stored
times, the in-flight times and the remaining queue partition the original
queue exactly — each queued time is dequeued by exactly one worker loop —
but only under the sequential schedule (one seek in flight at a time, as
with a single worker) is every stored image the frame at its own dequeued
time. -/
theorem captureRun_dequeue_unique_and_seq_correct (q : List ℚ)
    (events : List CaptureEvent) :
    (captureRun (initCapture q) events).stored.map Prod.fst
        ++ (captureRun (initCapture q) events).waiting
        ++ (captureRun (initCapture q) events).queue = q
    ∧ (captureRun (initCapture q) (seqEvents q.length)).stored
        = q.map (fun t => (t, t)) := by
  constructor
  · simpa [initCapture] using captureRun_handled_eq events (initCapture q)
  · simpa [initCapture] using captureRun_seq_stored q 0 []

/-- C8 counterexample: the archive is not a function of video data and
settings alone, for two independent reasons.  First, with `useOriginalName`
set the entry names come from `video.src` — the randomly generated object
URL — so identical data and settings with different URLs give different
archives (second conjunct, at the sequential schedule).  Second, even with
`useOriginalName` off and the URL fixed, the images stored depend on the
scheduler interleaving of the capture loops: on queue [0, 1/2], the
sequential schedule stores the frames at 0 and 1/2, while the racy schedule
(both dequeues before either seek completes) stores the frame at 1/2 twice
(third conjunct). -/
theorem archive_depends_on_src_and_schedule :
    ¬ archiveDataSettingsOnly
    ∧ extractionArchiveOfSchedule encodeData frameAtBit oneFrameOrigSettings 1
        "blob:a" (seqEvents 1)
      ≠ extractionArchiveOfSchedule encodeData frameAtBit oneFrameOrigSettings 1
        "blob:b" (seqEvents 1)
    ∧ extractionArchiveOfSchedule encodeData frameAtBit twoFrameSettings 1
        "blob:a" (seqEvents 2)
      ≠ extractionArchiveOfSchedule encodeData frameAtBit twoFrameSettings 1
        "blob:a" racySchedule := by
  refine ⟨?_, by decide, ?_⟩
  · intro h
    have hab := h encodeData frameAtBit oneFrameOrigSettings 1
      "blob:a" "blob:b" (seqEvents 1) (seqEvents 1)
    exact absurd hab (by decide)
  · rw [seqArchiveEval, racyArchiveEval]
    decide

/-- C8 amended: no step of extraction, encoding or packaging performs a
network send — the whole effect trace is local — and the archive the
concurrent capture loops produce is a deterministic function of the video
data, the settings, the video element's object URL and the scheduler
interleaving: for a fixed interleaving the archive does not depend on the
URL when `useOriginalName` is off, and under the sequential single-worker
interleaving it is exactly the sequential extraction archive determined by
data, settings and URL. -/
theorem extraction_local_no_network
    (encode : ImgFormat → ℚ → ImageData → Bytes) (frameAt : ℚ → ImageData)
    (settings : VideoSettings) (duration : ℚ) (src : String)
    (events : List CaptureEvent)
    (hardwareConcurrency : Nat) (videoFileName : String) (now : Nat) :
    (∀ ef ∈ extractionEffects settings duration hardwareConcurrency videoFileName now,
        ef.isNetworkSend = false)
    ∧ (settings.useOriginalName = false →
        ∀ src₂, extractionArchiveOfSchedule encode frameAt settings duration src events
          = extractionArchiveOfSchedule encode frameAt settings duration src₂ events)
    ∧ extractionArchiveOfSchedule encode frameAt settings duration src
        (seqEvents (buildFrameQueue (extractionParams settings duration).2
          (extractionParams settings duration).1 duration).length)
      = extractionArchive encode frameAt settings duration src := by
  refine ⟨?_, ?_, ?_⟩
  · intro ef hef
    unfold extractionEffects at hef
    rcases List.mem_append.mp hef with hef | hef
    · rcases List.mem_append.mp hef with hef | hef
      · rw [List.eq_of_mem_replicate hef]
        rfl
      · rcases List.mem_flatMap.mp hef with ⟨t, _, ht⟩
        simp only [List.mem_cons, List.not_mem_nil, or_false] at ht
        rcases ht with rfl | rfl | rfl <;> rfl
    · simp only [List.mem_cons, List.not_mem_nil, or_false] at hef
      rcases hef with rfl | rfl <;> rfl
  · intro h src₂
    simp only [extractionArchiveOfSchedule]
    have hfun : (fun i => generateFilename settings i (extractionParams settings duration).2 src)
        = (fun i => generateFilename settings i (extractionParams settings duration).2 src₂) := by
      funext i
      exact generateFilename_ignores_name settings h i (extractionParams settings duration).2
        src src₂
    rw [hfun]
  · simp only [extractionArchiveOfSchedule, extractionArchive]
    rw [captureRun_seq_drawn]

/-- Witness for C8 amended: zip generation is not a network send; with
`useOriginalName` off the archive of the racy two-dequeue schedule agrees
across two distinct object URLs; and the concurrent model under the
sequential schedule yields the sequential extraction archive. -/
theorem extraction_local_no_network_witness :
    Effect.isNetworkSend Effect.generateZip = false
    ∧ twoFrameSettings.useOriginalName = false
    ∧ extractionArchiveOfSchedule encodeData frameAtBit twoFrameSettings 1 "blob:a"
        racySchedule
      = extractionArchiveOfSchedule encodeData frameAtBit twoFrameSettings 1 "blob:b"
        racySchedule
    ∧ extractionArchiveOfSchedule encodeData frameAtBit twoFrameSettings 1 "blob:a"
        (seqEvents (buildFrameQueue (extractionParams twoFrameSettings 1).2
          (extractionParams twoFrameSettings 1).1 1).length)
      = extractionArchive encodeData frameAtBit twoFrameSettings 1 "blob:a" :=
  ⟨(extraction_local_no_network encodeData frameAtBit twoFrameSettings 1 "blob:a"
      racySchedule 4 "v.mp4" 0).1 Effect.generateZip memGenerateZip,
   rfl,
   (extraction_local_no_network encodeData frameAtBit twoFrameSettings 1 "blob:a"
      racySchedule 4 "v.mp4" 0).2.1 rfl "blob:b",
   (extraction_local_no_network encodeData frameAtBit twoFrameSettings 1 "blob:a"
      racySchedule 4 "v.mp4" 0).2.2⟩

end Scenex

example : Scenex.stripExt "video.mp4" = "video" := by decide
example : Scenex.stripExt "blob:http://x/abc" = "blob:http://x/abc" := by decide
example : Scenex.stripExt "a.tar.gz" = "a.tar" := by decide
example : Scenex.stripExt "file." = "file." := by decide
example : Scenex.padStart "7" 3 '0' = "007" := by decide
